import Mathlib

/-!
Verification of the experiment queue manager of the bioreactor hub
(`src/bioreactor-hub/src/queue_manager.py` and the scheduler loop in
`src/bioreactor-hub/src/main.py`).

Modelling choices:
* Python `datetime` values are modelled as integers counting hours, so the
  24-hour retention window is the literal `24`.
* The Python `dict` of experiments is modelled as an association list with
  first-occurrence lookup/update/insert semantics (a Python dict never holds
  duplicate keys, and all three operations agree with the dict on such lists).
* `uuid.uuid4()` and `datetime.now()` are passed in as explicit parameters.
* `KeyError` in `get_next_experiment` is modelled by an outer `Option` layer:
  `none` is the raised exception, `some r` is a normal return of `r`.
* File I/O in `_save_queue` / `_load_queue` is modelled by a `StoredData`
  value: `saveQueue` produces the JSON-shaped payload, `loadQueue` parses it
  back (the `except` branch that resets to an empty queue corresponds to the
  `none` branch of parsing).
-/

inductive ExperimentStatus
  | queued
  | running
  | completed
  | failed
  | cancelled
  | paused
deriving DecidableEq, Repr

/-- `ExperimentStatus.value`: the `.value` string of the Python enum. -/
def ExperimentStatus.value : ExperimentStatus → String
  | .queued => "queued"
  | .running => "running"
  | .completed => "completed"
  | .failed => "failed"
  | .cancelled => "cancelled"
  | .paused => "paused"

/-- `ExperimentStatus(raw)`: the enum constructor from a raw string; `none`
models the `ValueError` raised on an unknown value. -/
def statusOfValue (s : String) : Option ExperimentStatus :=
  if s = "queued" then some .queued
  else if s = "running" then some .running
  else if s = "completed" then some .completed
  else if s = "failed" then some .failed
  else if s = "cancelled" then some .cancelled
  else if s = "paused" then some .paused
  else none

/-- The `Experiment` dataclass. Timestamps are hours as integers. -/
structure Experiment where
  experiment_id : String
  user_session_id : String
  script_content : String
  status : ExperimentStatus
  created_at : Int
  started_at : Option Int := none
  completed_at : Option Int := none
  exit_code : Option Int := none
  error_message : Option String := none
  priority : Int := 0
deriving DecidableEq, Repr

abbrev ExperimentDict := List (String × Experiment)

/-- Python dict read `d[k]` / `k in d`: first-occurrence lookup. -/
def dictLookup (d : ExperimentDict) (k : String) : Option Experiment :=
  match d with
  | [] => none
  | p :: rest => if p.1 = k then some p.2 else dictLookup rest k

/-- In-place mutation of the record stored at key `k` (first occurrence). -/
def dictUpdate (d : ExperimentDict) (k : String) (f : Experiment → Experiment) :
    ExperimentDict :=
  match d with
  | [] => []
  | p :: rest => if p.1 = k then (p.1, f p.2) :: rest else p :: dictUpdate rest k f

/-- Python dict write `d[k] = v`: overwrite in place if present, else append. -/
def dictInsert (d : ExperimentDict) (k : String) (v : Experiment) : ExperimentDict :=
  match d with
  | [] => [(k, v)]
  | p :: rest => if p.1 = k then (k, v) :: rest else p :: dictInsert rest k v

/-- Python `del d[k]` (for a dict the key occurs at most once). -/
def dictErase (d : ExperimentDict) (k : String) : ExperimentDict :=
  d.filter (fun p => p.1 != k)

/-- In-memory state of `QueueManager`: the experiments dict and the queue
order list, plus the per-user limit (`max_experiments_per_user = 5`). -/
structure QueueManager where
  experiments : ExperimentDict
  queue_order : List String
  max_experiments_per_user : Nat := 5
deriving DecidableEq, Repr

/-- The serialized form of one experiment produced by `Experiment.to_dict`
(status as its raw string; other fields pass through JSON unchanged). -/
structure StoredExperiment where
  experiment_id : String
  user_session_id : String
  script_content : String
  status : String
  created_at : Int
  started_at : Option Int := none
  completed_at : Option Int := none
  exit_code : Option Int := none
  error_message : Option String := none
  priority : Int := 0
deriving DecidableEq, Repr

/-- `Experiment.to_dict`. -/
def Experiment.toDict (e : Experiment) : StoredExperiment :=
  { experiment_id := e.experiment_id
    user_session_id := e.user_session_id
    script_content := e.script_content
    status := e.status.value
    created_at := e.created_at
    started_at := e.started_at
    completed_at := e.completed_at
    exit_code := e.exit_code
    error_message := e.error_message
    priority := e.priority }

/-- `Experiment.from_dict`; `none` models the `ValueError` raised by the
enum constructor on an unknown status string. -/
def StoredExperiment.toExperiment (d : StoredExperiment) : Option Experiment :=
  (statusOfValue d.status).map (fun st =>
    { experiment_id := d.experiment_id
      user_session_id := d.user_session_id
      script_content := d.script_content
      status := st
      created_at := d.created_at
      started_at := d.started_at
      completed_at := d.completed_at
      exit_code := d.exit_code
      error_message := d.error_message
      priority := d.priority })

/-- The JSON payload written by `_save_queue` and read by `_load_queue`. -/
structure StoredData where
  experiments : List (String × StoredExperiment)
  queue_order : List String
deriving DecidableEq, Repr

/-- `_save_queue`: serialize the full state. -/
def saveQueue (s : QueueManager) : StoredData :=
  { experiments := s.experiments.map (fun p => (p.1, p.2.toDict))
    queue_order := s.queue_order }

/-- A terminal experiment older than the cutoff, as tested by
`_cleanup_old_experiments` (requires `completed_at` to be set). -/
def shouldPurge (cutoff : Int) (e : Experiment) : Bool :=
  (e.status == .completed || e.status == .failed || e.status == .cancelled) &&
    (match e.completed_at with
     | some t => decide (t < cutoff)
     | none => false)

/-- `_cleanup_old_experiments`: collect the ids to remove, then delete each
from the dict and (first occurrence, if present) from the order list. -/
def cleanup_old_experiments (s : QueueManager) (now : Int) : QueueManager :=
  let cutoff := now - 24
  let toRemove := (s.experiments.filter (fun p => shouldPurge cutoff p.2)).map Prod.fst
  { s with
    experiments := toRemove.foldl (fun d k => dictErase d k) s.experiments
    queue_order := toRemove.foldl (fun o k => o.erase k) s.queue_order }

/-- The dict comprehension of `_load_queue`: parse every stored experiment,
propagating a `ValueError` (`none`) from any entry. -/
def parseStored : List (String × StoredExperiment) → Option ExperimentDict
  | [] => some []
  | p :: rest =>
    match p.2.toExperiment, parseStored rest with
    | some e, some es => some ((p.1, e) :: es)
    | _, _ => none

/-- `_load_queue` on an existing file: parse all experiments and the order,
then run the retention sweep; a parse failure resets to an empty queue. -/
def loadQueue (d : StoredData) (now : Int) : QueueManager :=
  match parseStored d.experiments with
  | some exps =>
      cleanup_old_experiments { experiments := exps, queue_order := d.queue_order } now
  | none => { experiments := [], queue_order := [] }

/-- Result of `add_experiment`: success carries the new id and the computed
queue position; failure is the quota error dict. -/
inductive AddResult
  | ok (experiment_id : String) (queue_position : Nat)
  | quotaExceeded
deriving DecidableEq, Repr

/-- The per-user quota filter of `add_experiment`: same submitter and status
in {Queued, Running}. -/
def isUserActive (u : String) (p : String × Experiment) : Bool :=
  p.2.user_session_id == u && (p.2.status == .queued || p.2.status == .running)

def userActiveCount (s : QueueManager) (u : String) : Nat :=
  (s.experiments.filter (isUserActive u)).length

def isQueuedOrPaused : ExperimentStatus → Bool
  | .queued => true
  | .paused => true
  | _ => false

/-- The queue position computed at the end of `add_experiment`: the number of
order entries that are in the dict with status Queued or Paused. -/
def activePositionCount (s : QueueManager) : Nat :=
  (s.queue_order.filter (fun id =>
    match dictLookup s.experiments id with
    | some e => isQueuedOrPaused e.status
    | none => false)).length

/-- The `Experiment(...)` literal built by `add_experiment`. -/
def newExperiment (u sc newId : String) (now : Int) : Experiment :=
  { experiment_id := newId, user_session_id := u, script_content := sc
    status := .queued, created_at := now }

/-- `add_experiment(user_session_id, script_content)`; the fresh uuid and
current time are explicit parameters. -/
def add_experiment (s : QueueManager) (u sc newId : String) (now : Int) :
    QueueManager × AddResult :=
  if s.max_experiments_per_user ≤ userActiveCount s u then
    (s, .quotaExceeded)
  else
    let s' : QueueManager :=
      { s with experiments := dictInsert s.experiments newId (newExperiment u sc newId now)
               queue_order := s.queue_order ++ [newId] }
    (s', .ok newId (activePositionCount s'))

/-- The loop body of `get_next_experiment`: walk the order, look each id up
in the dict without a guard (`none` is the `KeyError`), return the first
Queued experiment, or `some none` after a clean scan. -/
def nextFromOrder (exps : ExperimentDict) : List String → Option (Option Experiment)
  | [] => some none
  | id :: rest =>
    match dictLookup exps id with
    | none => none
    | some e => if e.status = .queued then some (some e) else nextFromOrder exps rest

/-- `get_next_experiment`. -/
def get_next_experiment (s : QueueManager) : Option (Option Experiment) :=
  nextFromOrder s.experiments s.queue_order

/-- The field mutation performed by `start_experiment`. -/
def startMutation (now : Int) (x : Experiment) : Experiment :=
  { x with status := .running, started_at := some now }

/-- `start_experiment`. -/
def start_experiment (s : QueueManager) (id : String) (now : Int) :
    QueueManager × Bool :=
  match dictLookup s.experiments id with
  | some e =>
    if e.status = .queued then
      ({ s with experiments := dictUpdate s.experiments id (startMutation now) }, true)
    else (s, false)
  | none => (s, false)

/-- The field mutation performed by `complete_experiment`. -/
def completeMutation (exitCode : Int) (msg : Option String) (now : Int)
    (x : Experiment) : Experiment :=
  { x with status := if exitCode = 0 then .completed else .failed
           completed_at := some now
           exit_code := some exitCode
           error_message := msg }

/-- `complete_experiment`: no status guard and no return value — the Python
function returns `None` on every path, so the model returns only the state. -/
def complete_experiment (s : QueueManager) (id : String) (exitCode : Int)
    (msg : Option String) (now : Int) : QueueManager :=
  match dictLookup s.experiments id with
  | some _ =>
    { s with experiments := dictUpdate s.experiments id (completeMutation exitCode msg now) }
  | none => s

/-- The field mutation performed by `cancel_experiment`. -/
def cancelMutation (now : Int) (x : Experiment) : Experiment :=
  { x with status := .cancelled, completed_at := some now }

/-- `cancel_experiment`. -/
def cancel_experiment (s : QueueManager) (id : String) (now : Int) :
    QueueManager × Bool :=
  match dictLookup s.experiments id with
  | some e =>
    if e.status = .queued ∨ e.status = .running then
      ({ s with experiments := dictUpdate s.experiments id (cancelMutation now) }, true)
    else (s, false)
  | none => (s, false)

/-- The field mutation performed by `pause_experiment`. -/
def pauseMutation (x : Experiment) : Experiment :=
  { x with status := .paused }

/-- `pause_experiment`. -/
def pause_experiment (s : QueueManager) (id : String) : QueueManager × Bool :=
  match dictLookup s.experiments id with
  | some e =>
    if e.status = .queued then
      ({ s with experiments := dictUpdate s.experiments id pauseMutation }, true)
    else (s, false)
  | none => (s, false)

/-- The field mutation performed by `resume_experiment`. -/
def resumeMutation (x : Experiment) : Experiment :=
  { x with status := .queued }

/-- `resume_experiment`. -/
def resume_experiment (s : QueueManager) (id : String) : QueueManager × Bool :=
  match dictLookup s.experiments id with
  | some e =>
    if e.status = .paused then
      ({ s with experiments := dictUpdate s.experiments id resumeMutation }, true)
    else (s, false)
  | none => (s, false)

/-- Python `list.insert(n, x)` for an already-clamped index `n`. -/
def insertAtPos (l : List String) (n : Nat) (x : String) : List String :=
  match n, l with
  | 0, l => x :: l
  | _ + 1, [] => [x]
  | n + 1, y :: ys => y :: insertAtPos ys n x

/-- `max(0, min(new_position, len(queue_order)))` after the removal. -/
def clampPos (pos : Int) (len : Nat) : Nat :=
  (max 0 (min pos (len : Int))).toNat

/-- `reorder_experiment`. -/
def reorder_experiment (s : QueueManager) (id : String) (pos : Int) :
    QueueManager × Bool :=
  if id ∈ s.queue_order then
    let removed := s.queue_order.erase id
    ({ s with queue_order := insertAtPos removed (clampPos pos removed.length) id }, true)
  else (s, false)

/-- `run_now`. -/
def run_now (s : QueueManager) (id : String) : QueueManager × Bool :=
  match dictLookup s.experiments id with
  | none => (s, false)
  | some e =>
    if e.status = .queued ∨ e.status = .paused then
      let exps :=
        if e.status = .paused then
          dictUpdate s.experiments id resumeMutation
        else s.experiments
      ({ s with experiments := exps, queue_order := id :: s.queue_order.erase id }, true)
    else (s, false)

/-- Python `list.index` wrapped in try/except: `none` is the `ValueError`. -/
def indexOfId : List String → String → Option Nat
  | [], _ => none
  | y :: ys, x => if y = x then some 0 else (indexOfId ys x).map (· + 1)

/-- The record returned by `get_experiment_status`. -/
structure StatusView where
  experiment_id : String
  status : String
  queue_position : Option Nat
  created_at : Int
  started_at : Option Int
  completed_at : Option Int
  exit_code : Option Int
  error_message : Option String
deriving DecidableEq, Repr

/-- `get_experiment_status`: the queue position, present only when Queued, is
the raw index of the id in the full order list plus one. -/
def get_experiment_status (s : QueueManager) (id : String) : Option StatusView :=
  match dictLookup s.experiments id with
  | none => none
  | some e =>
    some { experiment_id := e.experiment_id
           status := e.status.value
           queue_position :=
             if e.status = .queued then (indexOfId s.queue_order id).map (· + 1)
             else none
           created_at := e.created_at
           started_at := e.started_at
           completed_at := e.completed_at
           exit_code := e.exit_code
           error_message := e.error_message }

def isActiveStatus : ExperimentStatus → Bool
  | .queued => true
  | .running => true
  | .paused => true
  | _ => false

/-- The ids of the `queue` list built by `get_queue_status`: order entries
that are in the dict with an active (Queued/Running/Paused) status. -/
def queueStatusIds (s : QueueManager) : List String :=
  s.queue_order.filter (fun id =>
    match dictLookup s.experiments id with
    | some e => isActiveStatus e.status
    | none => false)

/-- The counts-and-list summary returned by `get_queue_status` (each queue
entry abbreviated to its id, which determines the rest of the record). -/
structure QueueStatusView where
  total_queued : Nat
  total_running : Nat
  total_paused : Nat
  estimated_wait_minutes : Nat
  queue : List String
deriving DecidableEq, Repr

def statusCount (s : QueueManager) (st : ExperimentStatus) : Nat :=
  (s.experiments.filter (fun p => p.2.status == st)).length

/-- `get_queue_status`. -/
def get_queue_status (s : QueueManager) : QueueStatusView :=
  { total_queued := statusCount s .queued
    total_running := statusCount s .running
    total_paused := statusCount s .paused
    estimated_wait_minutes := statusCount s .queued * 10
    queue := queueStatusIds s }

/-! ### Association-list lemmas (dict semantics) -/

theorem dictLookup_dictUpdate_self (d : ExperimentDict) (k : String)
    (f : Experiment → Experiment) (e : Experiment) (h : dictLookup d k = some e) :
    dictLookup (dictUpdate d k f) k = some (f e) := by
  induction d with
  | nil => simp [dictLookup] at h
  | cons p rest ih =>
    by_cases hk : p.1 = k
    · simp [dictLookup, hk] at h
      simp [dictUpdate, dictLookup, hk, h]
    · simp [dictLookup, hk] at h
      simp [dictUpdate, dictLookup, hk, ih h]

theorem dictLookup_dictUpdate_ne (d : ExperimentDict) (k k' : String)
    (f : Experiment → Experiment) (h : k' ≠ k) :
    dictLookup (dictUpdate d k f) k' = dictLookup d k' := by
  induction d with
  | nil => simp [dictUpdate]
  | cons p rest ih =>
    obtain ⟨a, b⟩ := p
    by_cases hk : a = k
    · subst hk
      have hne : ¬ a = k' := fun hh => h hh.symm
      simp [dictUpdate, dictLookup, hne]
    · simp [dictUpdate, dictLookup, hk, ih]

theorem dictUpdate_of_lookup_none (d : ExperimentDict) (k : String)
    (f : Experiment → Experiment) (h : dictLookup d k = none) :
    dictUpdate d k f = d := by
  induction d with
  | nil => simp [dictUpdate]
  | cons p rest ih =>
    by_cases hk : p.1 = k
    · simp [dictLookup, hk] at h
    · simp [dictLookup, hk] at h
      simp [dictUpdate, hk, ih h]

theorem dictUpdate_dictUpdate (d : ExperimentDict) (k : String)
    (f g : Experiment → Experiment) :
    dictUpdate (dictUpdate d k f) k g = dictUpdate d k (fun x => g (f x)) := by
  induction d with
  | nil => simp [dictUpdate]
  | cons p rest ih =>
    by_cases hk : p.1 = k
    · simp [dictUpdate, hk]
    · simp [dictUpdate, hk, ih]

theorem dictUpdate_eq_self (d : ExperimentDict) (k : String)
    (f : Experiment → Experiment) (e : Experiment)
    (h : dictLookup d k = some e) (hf : f e = e) :
    dictUpdate d k f = d := by
  induction d with
  | nil => simp [dictUpdate]
  | cons p rest ih =>
    obtain ⟨a, b⟩ := p
    by_cases hk : a = k
    · subst hk
      simp [dictLookup] at h
      subst h
      simp [dictUpdate, hf]
    · simp [dictLookup, hk] at h
      simp [dictUpdate, hk, ih h]

theorem dictInsert_of_lookup_none (d : ExperimentDict) (k : String)
    (v : Experiment) (h : dictLookup d k = none) :
    dictInsert d k v = d ++ [(k, v)] := by
  induction d with
  | nil => simp [dictInsert]
  | cons p rest ih =>
    by_cases hk : p.1 = k
    · simp [dictLookup, hk] at h
    · simp [dictLookup, hk] at h
      simp [dictInsert, hk, ih h]

theorem dictLookup_dictInsert_self (d : ExperimentDict) (k : String) (v : Experiment) :
    dictLookup (dictInsert d k v) k = some v := by
  induction d with
  | nil => simp [dictInsert, dictLookup]
  | cons p rest ih =>
    by_cases hk : p.1 = k
    · simp [dictInsert, dictLookup, hk]
    · simp [dictInsert, dictLookup, hk, ih]

theorem dictLookup_dictInsert_ne (d : ExperimentDict) (k k' : String)
    (v : Experiment) (h : k' ≠ k) :
    dictLookup (dictInsert d k v) k' = dictLookup d k' := by
  have hne : ¬ k = k' := fun hh => h hh.symm
  induction d with
  | nil => simp [dictInsert, dictLookup, hne]
  | cons p rest ih =>
    obtain ⟨a, b⟩ := p
    by_cases hk : a = k
    · subst hk
      simp [dictInsert, dictLookup, hne]
    · simp [dictInsert, dictLookup, hk, ih]

theorem filter_dictUpdate_length (d : ExperimentDict) (k : String)
    (f : Experiment → Experiment) (e : Experiment)
    (q : String × Experiment → Bool) (h : dictLookup d k = some e) :
    ((dictUpdate d k f).filter q).length + (if q (k, e) then 1 else 0)
      = (d.filter q).length + (if q (k, f e) then 1 else 0) := by
  induction d with
  | nil => simp [dictLookup] at h
  | cons p rest ih =>
    obtain ⟨a, b⟩ := p
    by_cases hk : a = k
    · subst hk
      obtain rfl : b = e := by simpa [dictLookup] using h
      simp only [dictUpdate, if_pos rfl, List.filter_cons]
      by_cases h1 : q (a, b) <;> by_cases h2 : q (a, f b) <;>
        simp [h1, h2]
    · simp only [dictLookup, if_neg hk] at h
      have hrec := ih h
      simp only [dictUpdate, if_neg hk, List.filter_cons]
      by_cases h1 : q (a, b) <;> simp [h1] <;> omega

theorem filter_dictUpdate_length_le_succ (d : ExperimentDict) (k : String)
    (f : Experiment → Experiment) (q : String × Experiment → Bool) :
    ((dictUpdate d k f).filter q).length ≤ (d.filter q).length + 1 := by
  induction d with
  | nil => simp [dictUpdate]
  | cons p rest ih =>
    obtain ⟨a, b⟩ := p
    by_cases hk : a = k
    · simp only [dictUpdate, if_pos hk, List.filter]
      by_cases h1 : q (a, b) <;> by_cases h2 : q (a, f b) <;>
        simp [h1, h2] <;> omega
    · simp only [dictUpdate, if_neg hk, List.filter]
      by_cases h1 : q (a, b) <;> simp [h1] <;> omega

theorem filter_dictUpdate_length_le (d : ExperimentDict) (k : String)
    (f : Experiment → Experiment) (q : String × Experiment → Bool)
    (hf : ∀ a x, q (a, f x) = false) :
    ((dictUpdate d k f).filter q).length ≤ (d.filter q).length := by
  induction d with
  | nil => simp [dictUpdate]
  | cons p rest ih =>
    obtain ⟨a, b⟩ := p
    by_cases hk : a = k
    · simp only [dictUpdate, if_pos hk, List.filter, hf a b]
      by_cases h1 : q (a, b) <;> simp [h1] <;> omega
    · simp only [dictUpdate, if_neg hk, List.filter]
      by_cases h1 : q (a, b) <;> simp [h1] <;> omega

theorem filter_dictInsert_length_le (d : ExperimentDict) (k : String)
    (v : Experiment) (q : String × Experiment → Bool) (hv : ∀ a, q (a, v) = false) :
    ((dictInsert d k v).filter q).length ≤ (d.filter q).length := by
  induction d with
  | nil => simp [dictInsert, List.filter, hv k]
  | cons p rest ih =>
    obtain ⟨a, b⟩ := p
    by_cases hk : a = k
    · simp only [dictInsert, if_pos hk, List.filter, hv k]
      by_cases h1 : q (a, b) <;> simp [h1] <;> omega
    · simp only [dictInsert, if_neg hk, List.filter]
      by_cases h1 : q (a, b) <;> simp [h1] <;> omega

/-! ### Scheduler step relation (queue_worker in main.py plus the API calls) -/

/-- Number of jobs whose status is Running. -/
def runningCount (s : QueueManager) : Nat :=
  (s.experiments.filter (fun p => p.2.status == .running)).length

/-- Fresh state of a hub with no queue file (`_load_queue` else-branch). -/
def initialState : QueueManager :=
  { experiments := [], queue_order := [] }

/-- One transition of the system: any API call into the queue manager, or one
of the two phases of a worker tick. `workerStart` carries the guard checked
by `queue_worker` before starting anything: no experiment is Running. The
worker steps are permissive about which id they touch, which only enlarges
the set of reachable states. -/
inductive Step : QueueManager → QueueManager → Prop
  | enqueue (s : QueueManager) (u sc newId : String) (now : Int) :
      Step s (add_experiment s u sc newId now).1
  | workerStart (s : QueueManager) (id : String) (now : Int)
      (h : runningCount s = 0) :
      Step s (start_experiment s id now).1
  | workerComplete (s : QueueManager) (id : String) (code : Int)
      (msg : Option String) (now : Int) :
      Step s (complete_experiment s id code msg now)
  | cancel (s : QueueManager) (id : String) (now : Int) :
      Step s (cancel_experiment s id now).1
  | pause (s : QueueManager) (id : String) :
      Step s (pause_experiment s id).1
  | resume (s : QueueManager) (id : String) :
      Step s (resume_experiment s id).1
  | reorder (s : QueueManager) (id : String) (pos : Int) :
      Step s (reorder_experiment s id pos).1
  | runNow (s : QueueManager) (id : String) :
      Step s (run_now s id).1
  | sweep (s : QueueManager) (now : Int) :
      Step s (cleanup_old_experiments s now)

/-- States reachable from a fresh hub by the step relation. -/
inductive Reachable : QueueManager → Prop
  | init : Reachable initialState
  | step {s t : QueueManager} : Reachable s → Step s t → Reachable t

theorem runningCount_add_le (s : QueueManager) (u sc newId : String) (now : Int) :
    runningCount (add_experiment s u sc newId now).1 ≤ runningCount s := by
  unfold add_experiment
  by_cases hq : s.max_experiments_per_user ≤ userActiveCount s u
  · simp [hq]
  · simp only [hq, if_false, runningCount]
    exact filter_dictInsert_length_le _ _ _ _ (fun a => by simp [newExperiment])

theorem runningCount_start_le (s : QueueManager) (id : String) (now : Int)
    (h : runningCount s = 0) :
    runningCount (start_experiment s id now).1 ≤ 1 := by
  unfold start_experiment
  cases hl : dictLookup s.experiments id with
  | none => simpa [h] using Nat.zero_le 1
  | some e =>
    by_cases hs : e.status = ExperimentStatus.queued
    · simp only [hs, if_pos rfl, runningCount]
      calc ((dictUpdate s.experiments id _).filter _).length
          ≤ (s.experiments.filter _).length + 1 :=
            filter_dictUpdate_length_le_succ _ _ _ _
        _ ≤ 1 := by rw [show (s.experiments.filter
              (fun p => p.2.status == ExperimentStatus.running)).length = 0 from h]
    · simp only [hs, if_false]
      simpa [h] using Nat.zero_le 1

theorem runningCount_complete_le (s : QueueManager) (id : String) (code : Int)
    (msg : Option String) (now : Int) :
    runningCount (complete_experiment s id code msg now) ≤ runningCount s := by
  unfold complete_experiment
  cases hl : dictLookup s.experiments id with
  | none => exact Nat.le_refl _
  | some e =>
    simp only [runningCount]
    refine filter_dictUpdate_length_le _ _ _ _ (fun a x => ?_)
    by_cases hc : code = 0 <;> simp [hc, completeMutation]

theorem runningCount_cancel_le (s : QueueManager) (id : String) (now : Int) :
    runningCount (cancel_experiment s id now).1 ≤ runningCount s := by
  unfold cancel_experiment
  cases hl : dictLookup s.experiments id with
  | none => exact Nat.le_refl _
  | some e =>
    by_cases hs : e.status = ExperimentStatus.queued ∨ e.status = ExperimentStatus.running
    · simp only [hs, if_true, runningCount]
      exact filter_dictUpdate_length_le _ _ _ _ (fun a x => by simp [cancelMutation])
    · simp only [hs, if_false]
      exact Nat.le_refl _

theorem runningCount_pause_le (s : QueueManager) (id : String) :
    runningCount (pause_experiment s id).1 ≤ runningCount s := by
  unfold pause_experiment
  cases hl : dictLookup s.experiments id with
  | none => exact Nat.le_refl _
  | some e =>
    by_cases hs : e.status = ExperimentStatus.queued
    · simp only [hs, if_pos rfl, runningCount]
      exact filter_dictUpdate_length_le _ _ _ _ (fun a x => by simp [pauseMutation])
    · simp only [hs, if_false]
      exact Nat.le_refl _

theorem runningCount_resume_le (s : QueueManager) (id : String) :
    runningCount (resume_experiment s id).1 ≤ runningCount s := by
  unfold resume_experiment
  cases hl : dictLookup s.experiments id with
  | none => exact Nat.le_refl _
  | some e =>
    by_cases hs : e.status = ExperimentStatus.paused
    · simp only [hs, if_pos rfl, runningCount]
      exact filter_dictUpdate_length_le _ _ _ _ (fun a x => by simp [resumeMutation])
    · simp only [hs, if_false]
      exact Nat.le_refl _

theorem runningCount_reorder_eq (s : QueueManager) (id : String) (pos : Int) :
    runningCount (reorder_experiment s id pos).1 = runningCount s := by
  unfold reorder_experiment
  by_cases hm : id ∈ s.queue_order <;> simp [hm, runningCount]

theorem runningCount_runNow_le (s : QueueManager) (id : String) :
    runningCount (run_now s id).1 ≤ runningCount s := by
  unfold run_now
  cases hl : dictLookup s.experiments id with
  | none => exact Nat.le_refl _
  | some e =>
    by_cases hs : e.status = ExperimentStatus.queued ∨ e.status = ExperimentStatus.paused
    · simp only [hs, if_true]
      by_cases hp : e.status = ExperimentStatus.paused
      · rw [if_pos hp]
        exact filter_dictUpdate_length_le _ _ _ _ (fun a x => by simp [resumeMutation])
      · rw [if_neg hp]
        exact Nat.le_refl _
    · simp only [hs, if_false]
      exact Nat.le_refl _

theorem foldl_dictErase_sublist (ks : List String) :
    ∀ d : ExperimentDict, (ks.foldl (fun d k => dictErase d k) d).Sublist d := by
  induction ks with
  | nil => intro d; exact List.Sublist.refl d
  | cons k ks ih =>
    intro d
    exact (ih (dictErase d k)).trans (List.filter_sublist d)

theorem runningCount_sweep_le (s : QueueManager) (now : Int) :
    runningCount (cleanup_old_experiments s now) ≤ runningCount s := by
  unfold cleanup_old_experiments runningCount
  exact ((foldl_dictErase_sublist _ _).filter _).length_le

/-- C2: at most one job in the whole job map has status Running in every
state reachable by the step relation (worker ticks guarded by the
no-Running check, interleaved with any API calls), starting from a fresh
hub. -/
theorem reachable_running_le_one {s : QueueManager} (hs : Reachable s) :
    runningCount s ≤ 1 := by
  induction hs with
  | init => simp [runningCount, initialState]
  | step hr hstep ih =>
    cases hstep with
    | enqueue u sc newId now => exact (runningCount_add_le _ u sc newId now).trans ih
    | workerStart id now h => exact runningCount_start_le _ id now h
    | workerComplete id code msg now =>
        exact (runningCount_complete_le _ id code msg now).trans ih
    | cancel id now => exact (runningCount_cancel_le _ id now).trans ih
    | pause id => exact (runningCount_pause_le _ id).trans ih
    | resume id => exact (runningCount_resume_le _ id).trans ih
    | reorder id pos => exact (runningCount_reorder_eq _ id pos).le.trans ih
    | runNow id => exact (runningCount_runNow_le _ id).trans ih
    | sweep now => exact (runningCount_sweep_le _ now).trans ih

/-! ### Concrete sample states -/

/-- A minimal experiment record with the given id, user and status. -/
def sampleExp (id u : String) (st : ExperimentStatus) : Experiment :=
  { experiment_id := id, user_session_id := u, script_content := "run()"
    status := st, created_at := 0 }

/-- One queued job `a`. -/
def queuedJobState : QueueManager :=
  { experiments := [("a", sampleExp "a" "u1" .queued)], queue_order := ["a"] }

/-- One completed job `c`. -/
def completedJobState : QueueManager :=
  { experiments := [("c", sampleExp "c" "u1" .completed)], queue_order := ["c"] }

/-! ### C3: complete_experiment -/

/-- C3 counterexample: `complete_experiment` has no status guard, so the
complete transition also fires from the Queued state, not only from Running —
completing a job that was never started turns it Completed. -/
theorem complete_mutates_from_queued_state :
    (dictLookup queuedJobState.experiments "a").map Experiment.status =
      some ExperimentStatus.queued ∧
    (dictLookup (complete_experiment queuedJobState "a" 0 none 5).experiments
      "a").map Experiment.status = some ExperimentStatus.completed := by
  constructor <;> rfl

/-- C3 amended: whenever the id exists — in any status, not only Running —
`complete_experiment` sets the status to Completed when `exit_code = 0` and
to Failed otherwise, stamps `completed_at`, and stores the exit code and
error message; on an absent id it leaves the state unchanged. -/
theorem complete_experiment_unguarded_spec (s : QueueManager) (id : String)
    (code : Int) (msg : Option String) (now : Int) :
    (∀ e, dictLookup s.experiments id = some e →
      complete_experiment s id code msg now =
        { s with experiments := dictUpdate s.experiments id (completeMutation code msg now) } ∧
      dictLookup (complete_experiment s id code msg now).experiments id =
        some { e with status := (if code = 0 then ExperimentStatus.completed else ExperimentStatus.failed), completed_at := some now, exit_code := some code, error_message := msg }) ∧
    (dictLookup s.experiments id = none → complete_experiment s id code msg now = s) := by
  constructor
  · intro e he
    constructor
    · unfold complete_experiment
      rw [he]
    · unfold complete_experiment
      rw [he]
      simpa [completeMutation] using dictLookup_dictUpdate_self s.experiments id
        (completeMutation code msg now) e he
  · intro hn
    unfold complete_experiment
    rw [hn]

/-- Closed instance of `complete_experiment_unguarded_spec` at concrete inputs. -/
theorem complete_experiment_unguarded_witness :
    complete_experiment queuedJobState "a" 7 (some "boom") 9 =
      { queuedJobState with experiments := dictUpdate queuedJobState.experiments "a" (completeMutation 7 (some "boom") 9) } ∧
    complete_experiment queuedJobState "zzz" 0 none 9 = queuedJobState :=
  ⟨((complete_experiment_unguarded_spec queuedJobState "a" 7 (some "boom") 9).1
      (sampleExp "a" "u1" .queued) rfl).1,
   (complete_experiment_unguarded_spec queuedJobState "zzz" 0 none 9).2 rfl⟩

/-! ### C4: cancel_experiment -/

/-- C4: `cancel_experiment` returns true and stamps Cancelled/`completed_at`
exactly when the job exists with status Queued or Running; in every other
case (absent id or any other status, Completed included) it returns false
and leaves the state unchanged. -/
theorem cancel_experiment_spec (s : QueueManager) (id : String) (now : Int) :
    (∀ e, dictLookup s.experiments id = some e →
      ((e.status = ExperimentStatus.queued ∨ e.status = ExperimentStatus.running) →
        cancel_experiment s id now =
          ({ s with experiments := dictUpdate s.experiments id (cancelMutation now) }, true) ∧
        dictLookup (cancel_experiment s id now).1.experiments id =
          some { e with status := ExperimentStatus.cancelled, completed_at := some now }) ∧
      (¬(e.status = ExperimentStatus.queued ∨ e.status = ExperimentStatus.running) →
        cancel_experiment s id now = (s, false))) ∧
    (dictLookup s.experiments id = none → cancel_experiment s id now = (s, false)) := by
  constructor
  · intro e he
    constructor
    · intro hst
      have h1 : cancel_experiment s id now =
          ({ s with experiments := dictUpdate s.experiments id (cancelMutation now) }, true) := by
        unfold cancel_experiment
        rw [he]
        simp only [hst, if_true]
      refine ⟨h1, ?_⟩
      rw [h1]
      simpa [cancelMutation] using dictLookup_dictUpdate_self s.experiments id
        (cancelMutation now) e he
    · intro hst
      unfold cancel_experiment
      rw [he]
      simp only [hst, if_false]
  · intro hn
    unfold cancel_experiment
    rw [hn]

/-- Closed instance of `cancel_experiment_spec`: cancelling a Queued job
succeeds; cancelling a Completed job or an absent id returns false and
changes nothing. -/
theorem cancel_experiment_spec_witness :
    (cancel_experiment queuedJobState "a" 3).2 = true ∧
    cancel_experiment completedJobState "c" 3 = (completedJobState, false) ∧
    cancel_experiment queuedJobState "nope" 3 = (queuedJobState, false) := by
  refine ⟨?_, ?_, ?_⟩
  · rw [(((cancel_experiment_spec queuedJobState "a" 3).1
      (sampleExp "a" "u1" .queued) rfl).1 (Or.inl rfl)).1]
  · exact ((cancel_experiment_spec completedJobState "c" 3).1
      (sampleExp "c" "u1" .completed) rfl).2 (by decide)
  · exact (cancel_experiment_spec queuedJobState "nope" 3).2 (by decide)

/-! ### C8: pause_experiment / resume_experiment -/

theorem resumeMutation_pauseMutation (e : Experiment)
    (h : e.status = ExperimentStatus.queued) :
    resumeMutation (pauseMutation e) = e := by
  cases e
  simp only [resumeMutation, pauseMutation]
  simp at h
  simp [h]

/-- C8: `pause_experiment` succeeds exactly on an existing Queued job and
`resume_experiment` exactly on an existing Paused job (false otherwise, also
for Running jobs and absent ids, leaving the state unchanged); pausing a
Queued job and then resuming it restores the original state exactly — the
job is Queued again with every other field and the order list untouched. -/
theorem pause_resume_spec (s : QueueManager) (id : String) :
    (∀ e, dictLookup s.experiments id = some e →
      (e.status = ExperimentStatus.queued →
        pause_experiment s id =
          ({ s with experiments := dictUpdate s.experiments id pauseMutation }, true) ∧
        resume_experiment (pause_experiment s id).1 id = (s, true)) ∧
      (e.status ≠ ExperimentStatus.queued → pause_experiment s id = (s, false)) ∧
      (e.status = ExperimentStatus.paused →
        resume_experiment s id =
          ({ s with experiments := dictUpdate s.experiments id resumeMutation }, true)) ∧
      (e.status ≠ ExperimentStatus.paused → resume_experiment s id = (s, false))) ∧
    (dictLookup s.experiments id = none →
      pause_experiment s id = (s, false) ∧ resume_experiment s id = (s, false)) := by
  constructor
  · intro e he
    refine ⟨?_, ?_, ?_, ?_⟩
    · intro hq
      have h1 : pause_experiment s id =
          ({ s with experiments := dictUpdate s.experiments id pauseMutation }, true) := by
        simp [pause_experiment, he, hq]
      refine ⟨h1, ?_⟩
      rw [h1]
      have hlook : dictLookup (dictUpdate s.experiments id pauseMutation) id =
          some (pauseMutation e) :=
        dictLookup_dictUpdate_self s.experiments id pauseMutation e he
      have h2 : dictUpdate (dictUpdate s.experiments id pauseMutation) id
          resumeMutation = s.experiments := by
        rw [dictUpdate_dictUpdate]
        exact dictUpdate_eq_self s.experiments id _ e he
          (resumeMutation_pauseMutation e hq)
      simp [resume_experiment, hlook, h2, pauseMutation]
    · intro hq
      simp [pause_experiment, he, hq]
    · intro hp
      simp [resume_experiment, he, hp]
    · intro hp
      simp [resume_experiment, he, hp]
  · intro hn
    constructor
    · simp [pause_experiment, hn]
    · simp [resume_experiment, hn]

/-- Closed instance of `pause_resume_spec`: pause then resume on the
one-queued-job state is the identity, and pausing a Completed job fails. -/
theorem pause_resume_spec_witness :
    resume_experiment (pause_experiment queuedJobState "a").1 "a" = (queuedJobState, true) ∧
    pause_experiment completedJobState "c" = (completedJobState, false) :=
  ⟨(((pause_resume_spec queuedJobState "a").1 (sampleExp "a" "u1" .queued) rfl).1 rfl).2,
   (((pause_resume_spec completedJobState "c").1 (sampleExp "c" "u1" .completed) rfl).2.1
      (by decide))⟩

/-! ### C9: failure signalling -/

/-- C9 counterexample: invoking `complete_experiment` on an absent id is a
silent no-op — the state comes back unchanged, and because the Python
function returns `None` on every path (its codomain carries no success or
failure indicator), the caller receives no signal that nothing happened. -/
theorem complete_silent_noop_cex :
    complete_experiment queuedJobState "missing" 0 none 7 = queuedJobState := by
  rfl

/-- C9 amended: the user-facing control operations do signal failure — cancel,
pause, resume and run-now return `false` on an absent id, reorder returns
`false` when the id is absent from the order, and enqueue returns the quota
error when the submitter is at the limit, each leaving the state unchanged —
but `complete_experiment` returns nothing and silently no-ops on an absent
id. -/
theorem operations_failure_signal_spec (s : QueueManager) (id u sc newId : String)
    (now : Int) (pos : Int) (code : Int) (msg : Option String) :
    (dictLookup s.experiments id = none →
      cancel_experiment s id now = (s, false) ∧
      pause_experiment s id = (s, false) ∧
      resume_experiment s id = (s, false) ∧
      run_now s id = (s, false) ∧
      complete_experiment s id code msg now = s) ∧
    (id ∉ s.queue_order → reorder_experiment s id pos = (s, false)) ∧
    (s.max_experiments_per_user ≤ userActiveCount s u →
      add_experiment s u sc newId now = (s, AddResult.quotaExceeded)) := by
  refine ⟨fun hn => ⟨?_, ?_, ?_, ?_, ?_⟩, fun hm => ?_, fun hq => ?_⟩
  · simp [cancel_experiment, hn]
  · simp [pause_experiment, hn]
  · simp [resume_experiment, hn]
  · simp [run_now, hn]
  · simp [complete_experiment, hn]
  · simp [reorder_experiment, hm]
  · simp [add_experiment, hq]

/-- Closed instance of `operations_failure_signal_spec` on the
one-queued-job state and an absent id. -/
theorem operations_failure_signal_witness :
    cancel_experiment queuedJobState "missing" 1 = (queuedJobState, false) ∧
    reorder_experiment queuedJobState "missing" 0 = (queuedJobState, false) :=
  ⟨((operations_failure_signal_spec queuedJobState "missing" "u1" "x" "f1" 1 0 0
      none).1 (by decide)).1,
   (operations_failure_signal_spec queuedJobState "missing" "u1" "x" "f1" 1 0 0
      none).2.1 (by decide)⟩

/-! ### C10: get_next_experiment -/

/-- A state whose order list references an id missing from the dict (nothing
in `_load_queue` validates the stored order against the stored map). -/
def ghostOrderState : QueueManager :=
  { experiments := [], queue_order := ["ghost"] }

/-- The first Queued job in order — the claim's description of what
`next_runnable` returns under the precondition: scan the order front to
back, skip Paused and terminal jobs, yield the first Queued one. -/
def firstQueuedInOrder (s : QueueManager) : Option Experiment :=
  (s.queue_order.filterMap (fun id =>
    match dictLookup s.experiments id with
    | some e => if e.status = ExperimentStatus.queued then some e else none
    | none => none)).head?

theorem nextFromOrder_eq_of_total (exps : ExperimentDict) (order : List String)
    (h : ∀ id ∈ order, (dictLookup exps id).isSome) :
    nextFromOrder exps order =
      some ((order.filterMap (fun id =>
        match dictLookup exps id with
        | some e => if e.status = ExperimentStatus.queued then some e else none
        | none => none)).head?) := by
  induction order with
  | nil => rfl
  | cons id rest ih =>
    have hid := h id (List.mem_cons_self id rest)
    cases hl : dictLookup exps id with
    | none => rw [hl] at hid; cases hid
    | some e =>
      by_cases hq : e.status = ExperimentStatus.queued
      · simp [nextFromOrder, hl, hq]
      · have hrest := ih (fun x hx => h x (List.mem_cons_of_mem id hx))
        simp [nextFromOrder, hl, hq, hrest]

/-- C10: `get_next_experiment` indexes the dict without a membership guard:
on a state whose order holds an id absent from the map it raises `KeyError`
(the outer `none`); whenever every order entry is a key of the map it
returns, without mutating anything, exactly the first Queued job in order,
skipping Paused and terminal jobs. -/
theorem get_next_experiment_spec :
    get_next_experiment ghostOrderState = none ∧
    (∀ s : QueueManager, (∀ id ∈ s.queue_order, (dictLookup s.experiments id).isSome) →
      get_next_experiment s = some (firstQueuedInOrder s)) := by
  constructor
  · rfl
  · intro s h
    exact nextFromOrder_eq_of_total s.experiments s.queue_order h

/-- Closed instance of `get_next_experiment_spec` on the one-queued-job
state. -/
theorem get_next_experiment_spec_witness :
    get_next_experiment queuedJobState = some (firstQueuedInOrder queuedJobState) :=
  get_next_experiment_spec.2 queuedJobState (by decide)

/-! ### C2 witness -/

/-- Closed instance of `reachable_running_le_one`: after enqueuing one job on
a fresh hub and letting the worker start it, at most one job is Running. -/
theorem reachable_running_le_one_witness :
    runningCount (start_experiment
      (add_experiment initialState "u1" "run()" "id1" 0).1 "id1" 0).1 ≤ 1 :=
  reachable_running_le_one
    (Reachable.step
      (Reachable.step Reachable.init (Step.enqueue initialState "u1" "run()" "id1" 0))
      (Step.workerStart _ "id1" 0 (by decide)))

/-! ### C1: add_experiment quota -/

/-- Five active (four Queued, one Running) jobs of submitter `u1`. -/
def fiveJobsState : QueueManager :=
  { experiments := [("e1", sampleExp "e1" "u1" .queued), ("e2", sampleExp "e2" "u1" .queued),
      ("e3", sampleExp "e3" "u1" .queued), ("e4", sampleExp "e4" "u1" .queued),
      ("e5", sampleExp "e5" "u1" .running)]
    queue_order := ["e1", "e2", "e3", "e4", "e5"] }

/-- C1: with the default limit of 5, enqueue for a submitter who already has
five jobs in {Queued, Running} fails with the quota error and changes
nothing; below the limit it creates a fresh Queued record under the new id
and appends that id to the order tail; Paused and terminal jobs do not
count, so cancelling one of a full set of five active jobs brings the count
to four and lets a subsequent enqueue succeed. -/
theorem add_experiment_quota_spec (s : QueueManager) (u sc newId cid : String)
    (now now2 : Int) (hmax : s.max_experiments_per_user = 5) :
    (5 ≤ userActiveCount s u →
      add_experiment s u sc newId now = (s, AddResult.quotaExceeded)) ∧
    (userActiveCount s u < 5 → ∃ p, add_experiment s u sc newId now =
      ({ s with experiments := dictInsert s.experiments newId (newExperiment u sc newId now), queue_order := s.queue_order ++ [newId] }, AddResult.ok newId p)) ∧
    (userActiveCount s u < 5 → dictLookup s.experiments newId = none →
      dictLookup (add_experiment s u sc newId now).1.experiments newId =
        some (newExperiment u sc newId now)) ∧
    (∀ e, userActiveCount s u = 5 → dictLookup s.experiments cid = some e →
      e.user_session_id = u →
      (e.status = ExperimentStatus.queued ∨ e.status = ExperimentStatus.running) →
      userActiveCount (cancel_experiment s cid now).1 u = 4 ∧
      ∃ p, (add_experiment (cancel_experiment s cid now).1 u sc newId now2).2 =
        AddResult.ok newId p) := by
  refine ⟨fun h5 => ?_, fun hlt => ?_, fun hlt hfresh => ?_, fun e h5c he hu hst => ?_⟩
  · have hc : s.max_experiments_per_user ≤ userActiveCount s u := by omega
    simp [add_experiment, hc]
  · have hc : ¬ (s.max_experiments_per_user ≤ userActiveCount s u) := by omega
    refine ⟨activePositionCount { s with experiments := dictInsert s.experiments newId (newExperiment u sc newId now), queue_order := s.queue_order ++ [newId] }, ?_⟩
    simp [add_experiment, hc]
  · have hc : ¬ (s.max_experiments_per_user ≤ userActiveCount s u) := by omega
    simp [add_experiment, hc, dictLookup_dictInsert_self]
  · have hcan : cancel_experiment s cid now =
        ({ s with experiments := dictUpdate s.experiments cid (cancelMutation now) }, true) := by
      simp [cancel_experiment, he, hst]
    have hqe : isUserActive u (cid, e) = true := by
      rcases hst with h | h <;> simp [isUserActive, hu, h]
    have hqe' : isUserActive u (cid, cancelMutation now e) = false := by
      simp [isUserActive, cancelMutation]
    have hcount := filter_dictUpdate_length s.experiments cid (cancelMutation now) e
      (isUserActive u) he
    simp [hqe, hqe'] at hcount
    have h4 : userActiveCount (cancel_experiment s cid now).1 u = 4 := by
      rw [hcan]
      show ((dictUpdate s.experiments cid (cancelMutation now)).filter
        (isUserActive u)).length = 4
      have h5c' : (s.experiments.filter (isUserActive u)).length = 5 := h5c
      omega
    refine ⟨h4, ?_⟩
    have hmax' : (cancel_experiment s cid now).1.max_experiments_per_user = 5 := by
      rw [hcan]
      exact hmax
    have hc : ¬ ((cancel_experiment s cid now).1.max_experiments_per_user ≤
        userActiveCount (cancel_experiment s cid now).1 u) := by
      rw [hmax', h4]
      omega
    refine ⟨activePositionCount { (cancel_experiment s cid now).1 with experiments := dictInsert (cancel_experiment s cid now).1.experiments newId (newExperiment u sc newId now2), queue_order := (cancel_experiment s cid now).1.queue_order ++ [newId] }, ?_⟩
    simp [add_experiment, hc]

/-- Closed instance of `add_experiment_quota_spec`: the sixth enqueue for
`u1` is rejected without mutation, and cancelling one of the five active
jobs drops the active count to four. -/
theorem add_experiment_quota_witness :
    add_experiment fiveJobsState "u1" "print(2)" "f6" 2 = (fiveJobsState, AddResult.quotaExceeded) ∧
    userActiveCount (cancel_experiment fiveJobsState "e1" 3).1 "u1" = 4 :=
  ⟨(add_experiment_quota_spec fiveJobsState "u1" "print(2)" "f6" "e1" 2 2 rfl).1
      (by decide),
   ((add_experiment_quota_spec fiveJobsState "u1" "print(2)" "f6" "e1" 3 3 rfl).2.2.2
      (sampleExp "e1" "u1" .queued) (by decide) (by decide) rfl (Or.inl rfl)).1⟩

/-! ### C7: queue position semantics -/

/-- A Queued job sitting behind a terminal job that is still in the order
list (terminal ids stay in the order until the retention sweep). -/
def staleOrderState : QueueManager :=
  { experiments := [("t", sampleExp "t" "u1" .completed), ("a", sampleExp "a" "u1" .queued)]
    queue_order := ["t", "a"] }

/-- The "active jobs only" queue-position variant that the claim attributes
to `status(id)`: the number of Queued/Paused jobs at or before the job in
the order sequence. Stated from the claim's words, for comparison with
`get_experiment_status`. -/
def activeOnlyPosition (s : QueueManager) (id : String) : Nat :=
  (((s.queue_order.takeWhile (fun x => x != id)) ++ [id]).filter (fun x =>
    match dictLookup s.experiments x with
    | some e => isQueuedOrPaused e.status
    | none => false)).length

/-- C7 counterexample: with a terminal job still in the order list,
`get_experiment_status` reports the raw 1-based index in the full order (2),
not the active-jobs-only position (1). -/
theorem status_position_raw_index_cex :
    (get_experiment_status staleOrderState "a").map StatusView.queue_position ≠
      some (some (activeOnlyPosition staleOrderState "a")) ∧
    (get_experiment_status staleOrderState "a").map StatusView.queue_position =
      some (some 2) ∧
    activeOnlyPosition staleOrderState "a" = 1 := by
  decide

theorem takeWhile_append_singleton (l : List String) (x : String)
    (h : ∀ y ∈ l, (y != x) = true) :
    (l ++ [x]).takeWhile (fun y => y != x) = l := by
  induction l with
  | nil => simp
  | cons y ys ih =>
    have hy := h y (List.mem_cons_self y ys)
    simp only [List.cons_append, List.takeWhile_cons, hy, if_true]
    rw [ih (fun z hz => h z (List.mem_cons_of_mem y hz))]

/-- C7 amended: the two position computations disagree — `add_experiment`
returns the active-jobs-only count (the count of Queued/Paused jobs, which
for the fresh tail job is its active-only position), while
`get_experiment_status` returns the raw index of the id in the full order
list plus one. -/
theorem queue_position_semantics (s : QueueManager) (id u sc newId : String)
    (now : Int) :
    (∀ e, dictLookup s.experiments id = some e → e.status = ExperimentStatus.queued →
      (get_experiment_status s id).map StatusView.queue_position =
        some ((indexOfId s.queue_order id).map (· + 1))) ∧
    (userActiveCount s u < s.max_experiments_per_user →
      dictLookup s.experiments newId = none → newId ∉ s.queue_order →
      (add_experiment s u sc newId now).2 =
        AddResult.ok newId (activePositionCount s + 1) ∧
      activeOnlyPosition (add_experiment s u sc newId now).1 newId =
        activePositionCount s + 1) := by
  constructor
  · intro e he hq
    simp [get_experiment_status, he, hq]
  · intro hq hf1 hf2
    have hc : ¬ (s.max_experiments_per_user ≤ userActiveCount s u) :=
      Nat.not_le.mpr hq
    have hfilter : ∀ l : List String, (∀ x ∈ l, x ≠ newId) →
        l.filter (fun x =>
          match dictLookup (dictInsert s.experiments newId
            (newExperiment u sc newId now)) x with
          | some e => isQueuedOrPaused e.status
          | none => false) =
        l.filter (fun x =>
          match dictLookup s.experiments x with
          | some e => isQueuedOrPaused e.status
          | none => false) := by
      intro l hl
      refine List.filter_congr (fun x hx => ?_)
      rw [dictLookup_dictInsert_ne s.experiments newId x
        (newExperiment u sc newId now) (hl x hx)]
    have hne : ∀ x ∈ s.queue_order, x ≠ newId := by
      intro x hx hEq
      exact hf2 (hEq ▸ hx)
    have hcount : activePositionCount
        { s with experiments := dictInsert s.experiments newId (newExperiment u sc newId now), queue_order := s.queue_order ++ [newId] } =
        activePositionCount s + 1 := by
      unfold activePositionCount
      show ((s.queue_order ++ [newId]).filter _).length = _
      rw [List.filter_append, hfilter s.queue_order hne]
      simp [dictLookup_dictInsert_self, newExperiment, isQueuedOrPaused]
    have hadd : add_experiment s u sc newId now =
        ({ s with experiments := dictInsert s.experiments newId (newExperiment u sc newId now), queue_order := s.queue_order ++ [newId] },
          AddResult.ok newId (activePositionCount { s with experiments := dictInsert s.experiments newId (newExperiment u sc newId now), queue_order := s.queue_order ++ [newId] })) := by
      simp [add_experiment, hc]
    constructor
    · rw [hadd]
      simp only [hcount]
    · rw [hadd]
      unfold activeOnlyPosition
      have hbne : ∀ y ∈ s.queue_order, (y != newId) = true := by
        intro y hy
        simpa using hne y hy
      show ((((s.queue_order ++ [newId]).takeWhile (fun x => x != newId)) ++ [newId]).filter _).length = _
      rw [takeWhile_append_singleton s.queue_order newId hbne]
      rw [List.filter_append, hfilter s.queue_order hne]
      simp [dictLookup_dictInsert_self, newExperiment, isQueuedOrPaused]
      rfl

/-- Closed instance of `queue_position_semantics`: the raw-index status
position on the stale-order state, and the enqueue position on the
one-queued-job state. -/
theorem queue_position_semantics_witness :
    (get_experiment_status staleOrderState "a").map StatusView.queue_position =
      some ((indexOfId staleOrderState.queue_order "a").map (· + 1)) ∧
    (add_experiment queuedJobState "u1" "x" "b" 1).2 =
      AddResult.ok "b" (activePositionCount queuedJobState + 1) :=
  ⟨(queue_position_semantics staleOrderState "a" "u1" "x" "b" 1).1
      (sampleExp "a" "u1" .queued) (by decide) rfl,
   ((queue_position_semantics queuedJobState "a" "u1" "x" "b" 1).2
      (by decide) (by decide) (by decide)).1⟩

/-! ### C5: reorder_experiment -/

/-- Two Queued jobs around a terminal job that is still in the order list. -/
def reorderMixState : QueueManager :=
  { experiments := [("a", sampleExp "a" "u1" .queued), ("t", sampleExp "t" "u1" .completed),
      ("b", sampleExp "b" "u1" .queued)]
    queue_order := ["a", "t", "b"] }

/-- C5 counterexample: reorder clamps against the full order list, which
still holds a terminal job, so after `reorder("a", 1)` the active-job list
is `["a", "b"]` with `"a"` at index 0, not at `min(pos, len-1) = 1`. -/
theorem reorder_snapshot_cex :
    (reorder_experiment reorderMixState "a" 1).2 = true ∧
    queueStatusIds (reorder_experiment reorderMixState "a" 1).1 = ["a", "b"] ∧
    indexOfId (queueStatusIds (reorder_experiment reorderMixState "a" 1).1) "a" =
      some 0 ∧
    indexOfId (queueStatusIds (reorder_experiment reorderMixState "a" 1).1) "a" ≠
      some (min 1 ((queueStatusIds (reorder_experiment reorderMixState "a" 1).1).length - 1)) := by
  decide

theorem mem_insertAtPos (l : List String) (n : Nat) (a x : String) :
    x ∈ insertAtPos l n a ↔ x = a ∨ x ∈ l := by
  induction l generalizing n with
  | nil => cases n <;> simp [insertAtPos]
  | cons y ys ih =>
    cases n with
    | zero => simp [insertAtPos]
    | succ m =>
      simp only [insertAtPos, List.mem_cons, ih m]
      tauto

theorem indexOfId_insertAtPos (l : List String) (n : Nat) (x : String)
    (hx : x ∉ l) (hn : n ≤ l.length) :
    indexOfId (insertAtPos l n x) x = some n := by
  induction l generalizing n with
  | nil =>
    cases n with
    | zero => simp [insertAtPos, indexOfId]
    | succ m => simp at hn
  | cons y ys ih =>
    cases n with
    | zero => simp [insertAtPos, indexOfId]
    | succ m =>
      have hy : ¬ (y = x) := fun h => hx (h ▸ List.mem_cons_self y ys)
      have hrec := ih m (fun h => hx (List.mem_cons_of_mem y h))
        (Nat.le_of_succ_le_succ hn)
      simp [insertAtPos, indexOfId, hy, hrec]

theorem clampPos_nonneg (pos : Int) (n : Nat) (h : 0 ≤ pos) :
    clampPos pos n = min pos.toNat n := by
  unfold clampPos
  omega

/-- C5 amended: `reorder_experiment` returns false on an id absent from the
order and otherwise removes the id and reinserts it at the position clamped
to the list length after removal; the follow-up property that the snapshot
shows the id at `min(pos, len-1)` holds when every order entry maps to an
active-status job (it fails when terminal jobs still sit in the order —
see the counterexample). -/
theorem reorder_experiment_spec (s : QueueManager) (id : String) (pos : Int) :
    (id ∉ s.queue_order → reorder_experiment s id pos = (s, false)) ∧
    (id ∈ s.queue_order → reorder_experiment s id pos =
      ({ s with queue_order := insertAtPos (s.queue_order.erase id) (clampPos pos (s.queue_order.erase id).length) id }, true)) ∧
    ((∀ x ∈ s.queue_order, ∃ e, dictLookup s.experiments x = some e ∧
        isActiveStatus e.status = true) →
      s.queue_order.Nodup → id ∈ s.queue_order → 0 ≤ pos →
      indexOfId (queueStatusIds (reorder_experiment s id pos).1) id =
        some (min pos.toNat (s.queue_order.length - 1))) := by
  refine ⟨fun hm => ?_, fun hm => ?_, fun hAll hnd hm hpos => ?_⟩
  · simp [reorder_experiment, hm]
  · simp [reorder_experiment, hm]
  · have h2 : reorder_experiment s id pos =
        ({ s with queue_order := insertAtPos (s.queue_order.erase id) (clampPos pos (s.queue_order.erase id).length) id }, true) := by
      simp [reorder_experiment, hm]
    rw [h2]
    have hlen : (s.queue_order.erase id).length + 1 = s.queue_order.length :=
      List.length_erase_add_one hm
    have hnotmem : id ∉ s.queue_order.erase id := by
      intro hmem
      rw [List.Nodup.erase_eq_filter hnd id] at hmem
      simp at hmem
    have hq : queueStatusIds
        { s with queue_order := insertAtPos (s.queue_order.erase id) (clampPos pos (s.queue_order.erase id).length) id } =
        insertAtPos (s.queue_order.erase id) (clampPos pos (s.queue_order.erase id).length) id := by
      unfold queueStatusIds
      refine List.filter_eq_self.mpr (fun x hx => ?_)
      have hxo : x ∈ s.queue_order := by
        rcases (mem_insertAtPos _ _ _ _).mp hx with h | h
        · exact h ▸ hm
        · exact List.mem_of_mem_erase h
      obtain ⟨e, he, hact⟩ := hAll x hxo
      simp [he, hact]
    rw [hq]
    have hle : clampPos pos (s.queue_order.erase id).length ≤
        (s.queue_order.erase id).length := by
      rw [clampPos_nonneg pos _ hpos]
      omega
    rw [indexOfId_insertAtPos _ _ _ hnotmem hle]
    have hlen' : (s.queue_order.erase id).length = s.queue_order.length - 1 := by
      omega
    rw [clampPos_nonneg pos _ hpos, hlen']

/-- Closed instance of `reorder_experiment_spec` on a two-queued-job state
with no terminal entries in the order. -/
theorem reorder_experiment_spec_witness :
    indexOfId (queueStatusIds (reorder_experiment
      { experiments := [("a", sampleExp "a" "u1" .queued), ("b", sampleExp "b" "u1" .queued)], queue_order := ["a", "b"] } "a" 5).1) "a" = some 1 ∧
    reorder_experiment queuedJobState "ghost" 0 = (queuedJobState, false) := by
  constructor
  · have h := (reorder_experiment_spec
      { experiments := [("a", sampleExp "a" "u1" .queued), ("b", sampleExp "b" "u1" .queued)], queue_order := ["a", "b"] } "a" 5).2.2
      (by decide) (by decide) (by decide) (by decide)
    exact h.trans (by decide)
  · exact (reorder_experiment_spec queuedJobState "ghost" 0).1 (by decide)

/-! ### C6: persistence round trip and retention sweep -/

theorem toDict_toExperiment (e : Experiment) :
    e.toDict.toExperiment = some e := by
  obtain ⟨a, b, c, st, d, f, g, h, i, j⟩ := e
  cases st <;> rfl

theorem parseStored_saveQueue (l : ExperimentDict) :
    parseStored (l.map (fun p => (p.1, p.2.toDict))) = some l := by
  induction l with
  | nil => rfl
  | cons p rest ih => simp [parseStored, toDict_toExperiment, ih]

theorem foldl_dictErase_eq_filter (ks : List String) :
    ∀ d : ExperimentDict, ks.foldl (fun d k => dictErase d k) d =
      d.filter (fun p => !(decide (p.1 ∈ ks))) := by
  induction ks with
  | nil => intro d; simp
  | cons k ks ih =>
    intro d
    rw [List.foldl_cons, ih (dictErase d k)]
    show (d.filter (fun p => p.1 != k)).filter _ = _
    rw [List.filter_filter]
    have hpt : ∀ p : String × Experiment,
        ((!(decide (p.1 ∈ ks))) && (p.1 != k)) = !(decide (p.1 ∈ k :: ks)) := by
      intro p
      by_cases h1 : p.1 = k <;> by_cases h2 : p.1 ∈ ks <;> simp [h1, h2]
    rw [funext hpt]

theorem foldl_erase_eq_filter (ks : List String) :
    ∀ o : List String, o.Nodup →
      ks.foldl (fun o k => o.erase k) o = o.filter (fun x => !(decide (x ∈ ks))) := by
  induction ks with
  | nil => intro o _; simp
  | cons k ks ih =>
    intro o ho
    rw [List.foldl_cons, ih (o.erase k) (ho.erase k),
      List.Nodup.erase_eq_filter ho k, List.filter_filter]
    have hpt : ∀ x : String,
        ((!(decide (x ∈ ks))) && (x != k)) = !(decide (x ∈ k :: ks)) := by
      intro x
      by_cases h1 : x = k <;> by_cases h2 : x ∈ ks <;> simp [h1, h2]
    rw [funext hpt]

theorem dictLookup_eq_none_of_not_mem_keys (d : ExperimentDict) (k : String)
    (h : k ∉ d.map Prod.fst) : dictLookup d k = none := by
  induction d with
  | nil => rfl
  | cons p rest ih =>
    simp only [List.map_cons, List.mem_cons] at h
    push_neg at h
    have hne : ¬ (p.1 = k) := fun hh => h.1 hh.symm
    simp [dictLookup, hne, ih h.2]

theorem mem_of_dictLookup_eq_some (d : ExperimentDict) (k : String)
    (e : Experiment) (h : dictLookup d k = some e) : (k, e) ∈ d := by
  induction d with
  | nil => simp [dictLookup] at h
  | cons p rest ih =>
    by_cases hk : p.1 = k
    · simp [dictLookup, hk] at h
      subst hk
      subst h
      exact List.mem_cons_self _ _
    · simp [dictLookup, hk] at h
      exact List.mem_cons_of_mem _ (ih h)

theorem dictLookup_eq_some_of_mem (d : ExperimentDict) (k : String)
    (e : Experiment) (hnd : (d.map Prod.fst).Nodup) (h : (k, e) ∈ d) :
    dictLookup d k = some e := by
  induction d with
  | nil => simp at h
  | cons p rest ih =>
    simp only [List.map_cons, List.nodup_cons] at hnd
    rcases List.mem_cons.mp h with h1 | h1
    · rw [← h1]
      simp [dictLookup]
    · have hk : ¬ (p.1 = k) := by
        intro hh
        apply hnd.1
        rw [hh]
        exact List.mem_map.mpr ⟨(k, e), h1, rfl⟩
      simp [dictLookup, hk, ih hnd.2 h1]

theorem dictLookup_filter (d : ExperimentDict) (k : String)
    (q : String × Experiment → Bool) (hnd : (d.map Prod.fst).Nodup) :
    dictLookup (d.filter q) k =
      match dictLookup d k with
      | some e => if q (k, e) then some e else none
      | none => none := by
  induction d with
  | nil => rfl
  | cons p rest ih =>
    obtain ⟨a, b⟩ := p
    simp only [List.map_cons, List.nodup_cons] at hnd
    obtain ⟨ha, hrest⟩ := hnd
    by_cases hk : a = k
    · subst hk
      have hnone : dictLookup (rest.filter q) a =
          none := by
        refine dictLookup_eq_none_of_not_mem_keys _ _ (fun hmem => ha ?_)
        exact ((List.filter_sublist rest).map Prod.fst).mem hmem
      by_cases hq : q (a, b)
      · simp [List.filter_cons, hq, dictLookup]
      · simp [List.filter_cons, hq, dictLookup, hnone]
    · by_cases hq : q (a, b)
      · simp [List.filter_cons, hq, dictLookup, hk, ih hrest]
      · simp [List.filter_cons, hq, dictLookup, hk, ih hrest]

theorem mem_purge_keys (d : ExperimentDict) (c : Int) (id : String)
    (hnd : (d.map Prod.fst).Nodup) :
    id ∈ (d.filter (fun p => shouldPurge c p.2)).map Prod.fst ↔
      ∃ e, dictLookup d id = some e ∧ shouldPurge c e = true := by
  constructor
  · intro h
    obtain ⟨p, hp, hid⟩ := List.mem_map.mp h
    obtain ⟨hpd, hpq⟩ := List.mem_filter.mp hp
    refine ⟨p.2, ?_, hpq⟩
    rw [← hid]
    exact dictLookup_eq_some_of_mem d p.1 p.2 hnd (by simpa using hpd)
  · rintro ⟨e, he, hp⟩
    refine List.mem_map.mpr ⟨(id, e), ?_, rfl⟩
    exact List.mem_filter.mpr ⟨mem_of_dictLookup_eq_some d id e he, hp⟩

/-- C6: saving the state and loading it back reproduces the job map and
order list up to the retention sweep that load runs, and that sweep removes
exactly the jobs that are terminal with a `completed_at` older than the
24-hour cutoff, deleting each such id from both the map and the order; every
other job (and every order entry of one) survives unchanged. -/
theorem persistence_roundtrip_spec (s : QueueManager) (now : Int)
    (hKeys : (s.experiments.map Prod.fst).Nodup) (hOrd : s.queue_order.Nodup) :
    ((loadQueue (saveQueue s) now).experiments =
        (cleanup_old_experiments s now).experiments ∧
      (loadQueue (saveQueue s) now).queue_order =
        (cleanup_old_experiments s now).queue_order) ∧
    (∀ id e, dictLookup (cleanup_old_experiments s now).experiments id = some e ↔
      (dictLookup s.experiments id = some e ∧ shouldPurge (now - 24) e = false)) ∧
    (∀ id, id ∈ (cleanup_old_experiments s now).queue_order ↔
      (id ∈ s.queue_order ∧
        ¬ ∃ e, dictLookup s.experiments id = some e ∧
          shouldPurge (now - 24) e = true)) := by
  have hexp : (cleanup_old_experiments s now).experiments =
      s.experiments.filter (fun p => !(decide (p.1 ∈
        (s.experiments.filter (fun p => shouldPurge (now - 24) p.2)).map Prod.fst))) :=
    foldl_dictErase_eq_filter _ s.experiments
  have hord : (cleanup_old_experiments s now).queue_order =
      s.queue_order.filter (fun x => !(decide (x ∈
        (s.experiments.filter (fun p => shouldPurge (now - 24) p.2)).map Prod.fst))) :=
    foldl_erase_eq_filter _ s.queue_order hOrd
  refine ⟨?_, fun id e => ?_, fun id => ?_⟩
  · unfold loadQueue saveQueue
    simp only [parseStored_saveQueue]
    exact ⟨rfl, rfl⟩
  · rw [hexp, dictLookup_filter s.experiments id _ hKeys]
    cases hL : dictLookup s.experiments id with
    | none => simp
    | some e' =>
      by_cases hm : id ∈ (s.experiments.filter
          (fun p => shouldPurge (now - 24) p.2)).map Prod.fst
      · obtain ⟨e'', he'', hp''⟩ := (mem_purge_keys s.experiments (now - 24) id hKeys).mp hm
        rw [hL] at he''
        injection he'' with he''
        subst he''
        simp only [hm, decide_eq_true_eq]
        constructor
        · intro h
          simp at h
        · rintro ⟨h1, h2⟩
          injection h1 with h1
          subst h1
          rw [hp''] at h2
          cases h2
      · have hnot : ¬ ∃ e'', dictLookup s.experiments id = some e'' ∧
            shouldPurge (now - 24) e'' = true :=
          fun hex => hm ((mem_purge_keys s.experiments (now - 24) id hKeys).mpr hex)
        have hpf : shouldPurge (now - 24) e' = false := by
          cases hb : shouldPurge (now - 24) e' with
          | false => rfl
          | true => exact absurd ⟨e', hL, hb⟩ hnot
        simp [hm, hpf]
        intro h
        subst h
        exact hpf
  · rw [hord, List.mem_filter]
    have hiff := mem_purge_keys s.experiments (now - 24) id hKeys
    constructor
    · rintro ⟨h1, h2⟩
      simp only [Bool.not_eq_true', decide_eq_false_iff_not] at h2
      exact ⟨h1, fun hex => h2 (hiff.mpr hex)⟩
    · rintro ⟨h1, h2⟩
      refine ⟨h1, ?_⟩
      simp only [Bool.not_eq_true', decide_eq_false_iff_not]
      exact fun hm => h2 (hiff.mp hm)

/-- A state with one stale terminal job (`completed_at = 0`) and one Queued
job, loaded at hour 48 (cutoff 24). -/
def retiredState : QueueManager :=
  { experiments := [("old", { sampleExp "old" "u1" .completed with completed_at := some 0 }), ("new", sampleExp "new" "u1" .queued)]
    queue_order := ["old", "new"] }

/-- Closed instance of `persistence_roundtrip_spec` on `retiredState`. -/
theorem persistence_roundtrip_witness :
    (loadQueue (saveQueue retiredState) 48).experiments =
      (cleanup_old_experiments retiredState 48).experiments ∧
    (dictLookup (cleanup_old_experiments retiredState 48).experiments "new" =
        some (sampleExp "new" "u1" .queued) ↔
      (dictLookup retiredState.experiments "new" = some (sampleExp "new" "u1" .queued) ∧
        shouldPurge (48 - 24) (sampleExp "new" "u1" .queued) = false)) :=
  ⟨(persistence_roundtrip_spec retiredState 48 (by decide) (by decide)).1.1,
   (persistence_roundtrip_spec retiredState 48 (by decide) (by decide)).2.1 "new"
     (sampleExp "new" "u1" .queued)⟩
